import Mathlib

/-!
# Verification of the py-smps bin-weighted moment/statistics engine

A shallow embedding of the core of `smps/models.py` and `smps/utils.py`
(the `GenericParticleSizer` methods `_subselect_bins`, `_subselect_frame`,
`stats`, `integrate`, `slice`, `resample`, and the `make_bins` utility),
together with theorems settling the frozen claims about the spec.

Modelling conventions:
* Python floats are modelled by an arbitrary `LinearOrderedField α`
  (instantiated at `ℚ` for concrete evaluation and at `ℝ` where the real
  transcendental functions matter).  Division by zero is total (`x / 0 = 0`)
  as in Lean; no settled claim depends on a division-by-zero corner.
* `NaN` cells of a pandas DataFrame are modelled as `Option α` with `none`
  playing the role of `NaN`; pandas' NaN-skipping `sum` is a sum over the
  `some` entries (an all-`NaN` sum is `0.0` in pandas and `0` here).
* The transcendental operations used by the source (`np.log10`, `np.pi`,
  `np.exp`, `np.log`, `np.sqrt`, `** (1./3.)`, `10 ** x`, `round(x, 4)`)
  are collected in a `RealOps` record that is threaded through the
  definitions; `realOps` instantiates it at `ℝ` with the actual functions.
* Exceptions are modelled by `Except` with an error type listing the Python
  exception classes the source can raise, plus the `ConfigurationError`
  kind that the spec's error taxonomy names (no such class exists in the
  source; the constructor exists only so the spec's claims can be stated).
* Python object mutation is modelled by state passing: each method of
  `GenericParticleSizer` becomes a function returning a pair of its result
  and the post-state of the receiver.
-/

namespace Smps

/-- One particle-size bin: the `(lower, mid, upper)` diameter triple,
one row of the model's Nx3 `bins` array. -/
structure Bin3 (α : Type) where
  lower : α
  mid : α
  upper : α
deriving DecidableEq, Repr

instance {α : Type} [Inhabited α] : Inhabited (Bin3 α) :=
  ⟨⟨default, default, default⟩⟩

/-- The transcendental / float-specific operations the source uses, threaded
through the embedding as a record of functions. -/
structure RealOps (α : Type) where
  log10 : α → α
  pi : α
  exp : α → α
  log : α → α
  sqrt : α → α
  /-- Python `x ** (1./3.)`. -/
  cbrt : α → α
  /-- Python `math.pow(10, x)`. -/
  pow10 : α → α
  /-- Python `round(x, 4)`. -/
  round4 : α → α

/-- The Python exception classes raised by the embedded source code, plus the
`ConfigurationError` kind named by the spec's error taxonomy.  The source
defines only `ValidationError`; `AssertionError` comes from `assert`
statements, `AttributeError` and `Exception` from explicit `raise`
statements.  No code in the repository defines or raises a
`ConfigurationError`; its constructor is included solely so that claims
stated in the spec's vocabulary can be expressed (and refuted). -/
inductive PyErr where
  | assertionError (msg : String)
  | attributeError (msg : String)
  | validationError (msg : String)
  | exception (msg : String)
  | configurationError (msg : String)
deriving DecidableEq, Repr

/-- `true` exactly on `Except.error (PyErr.configurationError _)`; used to
state counterexamples to the spec's `ConfigurationError` claims without
binders. -/
def isConfigErr {β : Type} : Except PyErr β → Bool
  | .error (.configurationError _) => true
  | _ => false

section Core

variable {α : Type} [LinearOrderedField α]

/-- The per-bin weight computed by the loop body shared by
`GenericParticleSizer._subselect_bins` and
`GenericParticleSizer._subselect_frame` (models.py lines 277-283 and
310-318; the two loops are textually identical).  The three `if`
statements are sequential (no `elif`), so a later branch overwrites an
earlier one. -/
def binFactor (dmin dmax : α) (b : Bin3 α) : α :=
  let f0 : α := 0
  let f1 : α := if b.lower ≥ dmin ∧ b.upper ≤ dmax then 1 else f0
  let f2 : α := if dmin ≥ b.lower ∧ dmin < b.upper then
    (b.upper - dmin) / (b.upper - b.lower) else f1
  let f3 : α := if dmax ≥ b.lower ∧ dmax < b.upper then
    (dmax - b.lower) / (b.upper - b.lower) else f2
  f3

/-- `GenericParticleSizer._subselect_bins`: the vector of per-bin
fractional-inclusion weights for the diameter range `[dmin, dmax]`. -/
def subselect_bins (bins : List (Bin3 α)) (dmin dmax : α) : List α :=
  bins.map (binFactor dmin dmax)

/-- The "integrated sum" of a histogram over `[dmin, dmax]`: the
elementwise product of the `_subselect_bins` weights with the per-bin
histogram values, summed across bins (what `_subselect_frame` followed by
`.sum(axis=1)` computes for one row). -/
def integratedSum (bins : List (Bin3 α)) (hist : List α) (dmin dmax : α) : α :=
  (List.zipWith (fun w h => w * h) (subselect_bins bins dmin dmax) hist).sum

/-- A pandas `DataFrame` as the source uses it: named columns, a numeric
(timestamp) index, and `Option`-valued cells (`none` = `NaN`).  Rows are
aligned positionally with `index`, cells positionally with `columns`. -/
structure Frame (α : Type) where
  columns : List String
  index : List α
  rows : List (List (Option α))
deriving DecidableEq, Repr

/-- Look up column `c` of one row (`row[c]` in pandas); `NaN` when the
column is absent. -/
def getCell (cols : List String) (row : List (Option α)) (c : String) : Option α :=
  match cols.findIdx? (fun x => x == c) with
  | some i => row.getD i Option.none
  | Option.none => Option.none

/-- `df[labels]`: the sub-frame holding the named columns, in that order. -/
def selectCols (f : Frame α) (labels : List String) : Frame α :=
  { columns := labels
    index := f.index
    rows := f.rows.map (fun r => labels.map (fun c => getCell f.columns r c)) }

/-- `Series.mul` of an `Option`-valued row with a positionally aligned
vector; `NaN` cells stay `NaN`. -/
def mulOptVec (r : List (Option α)) (v : List α) : List (Option α) :=
  List.zipWith (fun cell x => cell.map (fun y => y * x)) r v

/-- `df.mul(v)` with a per-column vector `v` (numpy broadcast along
columns). -/
def mulVec (f : Frame α) (v : List α) : Frame α :=
  { f with rows := f.rows.map (fun r => mulOptVec r v) }

/-- `df[labels] = df[labels].mul(factors)`: multiply exactly the named
columns by the factor aligned with the label's position in `labels`,
leaving the other columns untouched. -/
def mulCols (labels : List String) (factors : List α) (cols : List String)
    (row : List (Option α)) : List (Option α) :=
  List.zipWith (fun c cell =>
    match labels.findIdx? (fun x => x == c) with
    | some j => cell.map (fun y => y * factors.getD j 0)
    | Option.none => cell) cols row

/-- `GenericParticleSizer._subselect_frame` (models.py lines 252-291): zero
or fractionally weight the bin columns of `df` according to the same
per-bin loop as `_subselect_bins` (the source duplicates the loop body;
`binFactor` is that shared body), leaving other columns untouched. -/
def subselect_frame (bins : List (Bin3 α)) (bin_labels : List String)
    (df : Frame α) (dmin dmax : α) : Frame α :=
  let factors := subselect_bins bins dmin dmax
  { df with rows := df.rows.map (mulCols bin_labels factors df.columns) }

/-- pandas' NaN-skipping `Series.sum`: the sum of the non-`NaN` entries
(an all-`NaN` row sums to `0.0`). -/
def rowSum (r : List (Option α)) : α := (r.filterMap id).sum

/-- The state of a `GenericParticleSizer` instance: the data table, the
Nx3 bin table, and the bin column labels. -/
structure Sizer (α : Type) where
  data : Frame α
  bins : List (Bin3 α)
  bin_labels : List String
deriving DecidableEq, Repr

/-- `GenericParticleSizer.dlogdp`: `log10(upper) - log10(lower)` per bin. -/
def dlogdp (ops : RealOps α) (bins : List (Bin3 α)) : List α :=
  bins.map (fun b => ops.log10 b.upper - ops.log10 b.lower)

/-- `GenericParticleSizer.s_multiplier`: `4*pi*(mid/2)**2` per bin. -/
def s_multiplier (ops : RealOps α) (bins : List (Bin3 α)) : List α :=
  bins.map (fun b => 4 * ops.pi * (b.mid / 2) ^ 2)

/-- `GenericParticleSizer.v_multiplier`: `(4/3)*pi*(mid/2)**3` per bin. -/
def v_multiplier (ops : RealOps α) (bins : List (Bin3 α)) : List α :=
  bins.map (fun b => 4 / 3 * ops.pi * (b.mid / 2) ^ 3)

/-- `GenericParticleSizer.midpoints`: the middle column of the bin table. -/
def midpoints (bins : List (Bin3 α)) : List α := bins.map Bin3.mid

/-- `GenericParticleSizer.dndlogdp`: `self.data[self.bin_labels]`. -/
def dndlogdp (s : Sizer α) : Frame α := selectCols s.data s.bin_labels

/-- `GenericParticleSizer.dn`: `self.dndlogdp.mul(self.dlogdp)`. -/
def dn (ops : RealOps α) (s : Sizer α) : Frame α :=
  mulVec (dndlogdp s) (dlogdp ops s.bins)

/-- `GenericParticleSizer.ds`: `self.dn.mul(self.s_multiplier)`. -/
def ds (ops : RealOps α) (s : Sizer α) : Frame α :=
  mulVec (dn ops s) (s_multiplier ops s.bins)

/-- `GenericParticleSizer.dvdlogdp`: `self.dndlogdp.mul(self.v_multiplier)`. -/
def dvdlogdp (ops : RealOps α) (s : Sizer α) : Frame α :=
  mulVec (dndlogdp s) (v_multiplier ops s.bins)

/-- `GenericParticleSizer.dv`: `self.dvdlogdp.mul(self.dlogdp)`. -/
def dv (ops : RealOps α) (s : Sizer α) : Frame α :=
  mulVec (dvdlogdp ops s) (dlogdp ops s.bins)

/-- The recognized `weight` values shared by `stats` and `integrate`. -/
def validWeights : List String := ["number", "surface", "volume", "mass"]

/-- The `rho` keyword argument of `integrate`: a float or a callable of the
particle diameter. -/
inductive RhoArg (α : Type) where
  | const (c : α)
  | func (f : α → α)

/-- `_rho = rho if callable(rho) else lambda x: rho`. -/
def RhoArg.toFun : RhoArg α → (α → α)
  | .const c => fun _ => c
  | .func f => f

/-- The `kappa` keyword argument of `integrate`: absent (`None`), a float,
or a callable of the particle diameter. -/
inductive KappaArg (α : Type) where
  | none
  | const (c : α)
  | func (f : α → α)

/-- Python truthiness of the `kappa` argument as tested by `if kappa:`:
`None` and the float `0.0` are falsy, every callable is truthy. -/
def KappaArg.truthy : KappaArg α → Bool
  | .none => false
  | .const c => if c = 0 then false else true
  | .func _ => true

/-- `_kappa = kappa if callable(kappa) else lambda x: kappa` (the `none`
case is never reached behind the truthiness guard). -/
def KappaArg.toFun : KappaArg α → (α → α)
  | .none => fun _ => 0
  | .const c => fun _ => c
  | .func f => f

/-- The bin recomputation at the top of `compute_integration_by_row`
(models.py lines 574-588): copy the stored bins, evaluate kappa at every
stored midpoint (`k = [_kappa(dp) for dp in _bins[:, 1]]`, before any
mutation), then divide all three edges of bin `i` by
`(1 + k[i] * (rh / (100. - rh))) ** (1./3.)`. -/
def recomputeBins (cbrt : α → α) (kap : α → α) (rh : α)
    (bins : List (Bin3 α)) : List (Bin3 α) :=
  let k := bins.map (fun b => kap b.mid)
  (bins.zip k).map (fun bk =>
    let f := cbrt (1 + bk.2 * (rh / (100 - rh)))
    ⟨bk.1.lower / f, bk.1.mid / f, bk.1.upper / f⟩)

/-- The row function `compute_integration_by_row` of
`GenericParticleSizer.integrate` (models.py lines 573-603).  A `NaN`
humidity cell makes every recomputed bin edge `NaN`, no selector branch
fires, and the final NaN-skipping sum is `0.0`; that case is returned
directly as `0`. -/
def compute_integration_by_row (ops : RealOps α) (bins0 : List (Bin3 α))
    (bin_labels : List String) (rhoF kapF : α → α) (rh_c : String)
    (weight : String) (dmin dmax : α) (cols : List String)
    (row : List (Option α)) : α :=
  match getCell cols row rh_c with
  | Option.none => 0
  | some rh =>
    let wbins := recomputeBins ops.cbrt kapF rh bins0
    let factors := subselect_bins wbins dmin dmax
    let histogram := mulOptVec (bin_labels.map (getCell cols row)) factors
    let hgram :=
      if weight = "surface" then
        mulOptVec histogram (wbins.map (fun b => 4 * ops.pi * (b.mid / 2) ^ 2))
      else if weight = "volume" then
        mulOptVec histogram (wbins.map (fun b => 4 / 3 * ops.pi * (b.mid / 2) ^ 3))
      else if weight = "mass" then
        mulOptVec (mulOptVec histogram
            (wbins.map (fun b => 4 / 3 * ops.pi * (b.mid / 2) ^ 3)))
          (wbins.map (fun b => rhoF b.mid))
      else histogram
    rowSum hgram

/-- `self.data[c]` as a column of values aligned with the rows. -/
def colValues (f : Frame α) (c : String) : List (Option α) :=
  f.rows.map (fun r => getCell f.columns r c)

/-- `cpy.loc[:, c] = vals`: append a new column named `c`. -/
def appendCol (f : Frame α) (c : String) (vals : List (Option α)) : Frame α :=
  { f with
    columns := f.columns ++ [c]
    rows := List.zipWith (fun r v => r ++ [v]) f.rows vals }

/-- The message of the `AttributeError` raised when `kappa` is set without
an `rh` column name. -/
def rhRequiredMsg : String :=
  "`rh` is a required column when correcting for hygroscopic growth"

/-- `GenericParticleSizer.integrate` (models.py lines 472-612), as a state
transformer: the result series paired with the post-state of the receiver
(which the method never mutates; all writes go to fresh frames — `self.dn`
is a fresh product frame, so appending the humidity column to it does not
touch `self.data`).  The humidity-range checks at lines 546-553 only emit
log warnings and do not affect the result. -/
def integrateOp (ops : RealOps α) (s : Sizer α) (weight : String)
    (dmin dmax : α) (rho : RhoArg α) (kappa : KappaArg α)
    (rh : Option String) : Except PyErr (List α) × Sizer α :=
  let rhoF := rho.toFun
  if weight ∈ validWeights then
    if kappa.truthy then
      let kapF := kappa.toFun
      match rh with
      | Option.none => (.error (.attributeError rhRequiredMsg), s)
      | some rh_c =>
        if rh_c = "" then (.error (.attributeError rhRequiredMsg), s)
        else if rh_c ∈ s.data.columns then
          let cpy := appendCol (dn ops s) rh_c (colValues s.data rh_c)
          (.ok (cpy.rows.map (compute_integration_by_row ops s.bins
            s.bin_labels rhoF kapF rh_c weight dmin dmax cpy.columns)), s)
        else
          (.error (.validationError
            ("No column for " ++ rh_c ++ " was found in `data`")), s)
    else
      let df :=
        if weight = "number" then dn ops s
        else if weight = "surface" then ds ops s
        else if weight = "volume" then dv ops s
        else mulVec (dv ops s) (s.bins.map (fun b => rhoF b.mid))
      let df2 := subselect_frame s.bins s.bin_labels df dmin dmax
      (.ok ((selectCols df2 s.bin_labels).rows.map rowSum), s)
  else (.error (.assertionError "Invalid `weight`"), s)

/-- One row of the statistics table returned by
`GenericParticleSizer.stats`. -/
structure StatsRow (α : Type) where
  number : α
  surface_area : α
  volume : α
  mass : α
  AM : α
  GM : α
  Mode : Option α
  GSD : α
deriving DecidableEq, Repr

/-- pandas `Series.idxmax` on the histogram renamed by midpoints: the
midpoint attached to the first maximal non-`NaN` value (`NaN` when every
value is missing). -/
def idxmaxMid (cells : List (Option α)) (mids : List α) : Option α :=
  let pairs := (List.zip cells mids).filterMap
    (fun p => p.1.map (fun x => (x, p.2)))
  match pairs with
  | [] => Option.none
  | h :: t =>
    some (List.foldl (fun best p => if p.1 > best.1 then p else best) h t).2

/-- `GenericParticleSizer._gsd` (models.py lines 702-739) applied to one
row: `hist` is the weighted histogram of the `tmp` frame and `gmCol` its
`GM` entry; `gm = GM * 1e-3`, and the result is
`exp(sqrt(sum(x_i*(ln mid_i - ln gm)^2)/sum(x_i)))` with `NaN` entries
skipped by both sums. -/
def gsdRow (ops : RealOps α) (mids : List α) (hist : List (Option α))
    (gmCol : α) : α :=
  let gm := gmCol * (1 / 1000)
  ops.exp (ops.sqrt
    (rowSum (List.zipWith
        (fun cell m => cell.map (fun x => x * (ops.log m - ops.log gm) ^ 2))
        hist mids)
      / rowSum hist))

/-- The per-row body of `GenericParticleSizer.stats` (models.py lines
362-470) evaluated on one already sub-selected data row `r`: totals for
all four moments, then the `AM`/`GM`/`Mode`/`tmp` branch selected by
`weight`, the extra density scaling for `weight='mass'` (which happens
after `tmp` captured the unscaled `GM`), and the `GSD`. -/
def statsRowOf (ops : RealOps α) (s : Sizer α) (weight : String) (rho : α)
    (cols : List String) (r : List (Option α)) : StatsRow α :=
  let binCells := s.bin_labels.map (getCell cols r)
  let dlog := dlogdp ops s.bins
  let dnR := mulOptVec binCells dlog
  let dsR := mulOptVec dnR (s_multiplier ops s.bins)
  let dvdR := mulOptVec binCells (v_multiplier ops s.bins)
  let dvR := mulOptVec dvdR dlog
  let number := rowSum dnR
  let surface_area := rowSum dsR
  let volume := rowSum dvR
  let mass := rowSum (dvR.map (fun cell => cell.map (fun y => y * rho)))
  let mids := midpoints s.bins
  let logMids := mids.map ops.log
  let amgm :=
    if weight = "number" then
      (1000 * rowSum (mulOptVec dnR mids) / number,
       1000 * ops.exp (rowSum (mulOptVec dnR logMids) / number),
       idxmaxMid binCells mids,
       dnR)
    else if weight = "surface" then
      (1000 * rowSum (mulOptVec dsR mids) / surface_area,
       1000 * ops.exp (rowSum (mulOptVec dsR logMids) / surface_area),
       idxmaxMid (mulOptVec binCells (s_multiplier ops s.bins)) mids,
       dsR)
    else
      (1000 * rowSum (mulOptVec dvR mids) / volume,
       1000 * ops.exp (rowSum (mulOptVec dvR logMids) / volume),
       idxmaxMid dvdR mids,
       dvR)
  let AM0 := amgm.1
  let GM0 := amgm.2.1
  let Mode0 := (amgm.2.2.1).map (fun m => 1000 * m)
  let tmp := amgm.2.2.2
  let AM := if weight = "mass" then AM0 * rho else AM0
  let GM := if weight = "mass" then GM0 * rho else GM0
  let Mode := if weight = "mass" then Mode0.map (fun m => m * rho) else Mode0
  let GSD := gsdRow ops mids tmp GM0
  ⟨number, surface_area, volume, mass, AM, GM, Mode, GSD⟩

/-- pandas `DataFrame.dropna(how='all')`: drop exactly the rows whose cells
are all missing, looking at every column of the frame (bin columns and
metadata alike). -/
def dropnaAll (f : Frame α) : Frame α :=
  { f with
    index := (List.zip f.index f.rows).filterMap
      (fun p => if p.2.any (fun c => c.isSome) then some p.1 else Option.none)
    rows := f.rows.filter (fun r => r.any (fun c => c.isSome)) }

/-- `GenericParticleSizer.stats` (models.py lines 322-470) as a state
transformer.  The method deep-copies the receiver, sub-selects the copy's
data, applies `dropna(how='all')`, and computes the statistics at the
surviving index only; `res` is created with the full original index, so
row `i` of the result is a computed record exactly when row `i` of the
sub-selected data has at least one non-`NaN` cell and a `NaN` placeholder
row (`none`) otherwise.  The receiver is returned unchanged. -/
def statsOp (ops : RealOps α) (s : Sizer α) (weight : String)
    (dmin dmax rho : α) : Except PyErr (List (Option (StatsRow α))) × Sizer α :=
  if weight ∈ validWeights then
    let cpy := { s with data := subselect_frame s.bins s.bin_labels s.data dmin dmax }
    (.ok (cpy.data.rows.map (fun r =>
      if r.any (fun c => c.isSome) then
        some (statsRowOf ops cpy weight rho cpy.data.columns r)
      else Option.none)), s)
  else (.error (.assertionError ""), s)

/-- pandas label slicing `self.data[start:end]` on a monotone timestamp
index: both endpoints inclusive, `None` unbounded. -/
def sliceFrame (f : Frame α) (a b : Option α) : Frame α :=
  let keep : α → Bool := fun t =>
    (match a with
     | Option.none => true
     | some x => decide (x ≤ t)) &&
    (match b with
     | Option.none => true
     | some y => decide (t ≤ y))
  { f with
    index := f.index.filter (fun t => keep t)
    rows := (List.zip f.index f.rows).filterMap
      (fun p => if keep p.1 then some p.2 else Option.none) }

/-- `GenericParticleSizer.slice` (models.py lines 614-646): with
`inplace=True` the receiver's data is replaced; otherwise a deep copy is
sliced and returned and the receiver is untouched. -/
def sliceOp (s : Sizer α) (a b : Option α) (inplace : Bool) :
    Option (Sizer α) × Sizer α :=
  if inplace then (Option.none, { s with data := sliceFrame s.data a b })
  else
    let cpy := s
    let cpy2 := { cpy with data := sliceFrame cpy.data a b }
    (some cpy2, s)

/-- The mean pandas takes per resample bucket and column: the mean of the
non-`NaN` cells, `NaN` when all are missing. -/
def colMean (cells : List (Option α)) : Option α :=
  let vals := cells.filterMap id
  if vals.length = 0 then Option.none
  else some (vals.sum / (vals.length : α))

/-- pandas `self.data.resample(rs).mean()` on an all-numeric frame,
modelled with bucket keys `⌊t / rs⌋`: per sorted bucket and column, the
mean of the non-`NaN` cells.  The frames of this model carry no
object-dtype columns, so the `select_dtypes` split of the source leaves
the object part empty and the outer merge is the numeric resample
itself. -/
def resampleFrame [FloorRing α] (rs : α) (f : Frame α) : Frame α :=
  let key : α → ℤ := fun t => ⌊t / rs⌋
  let keys := ((f.index.map key).dedup).insertionSort (fun a b => a ≤ b)
  { columns := f.columns
    index := keys.map (fun k => (k : α) * rs)
    rows := keys.map (fun k =>
      let group := (List.zip f.index f.rows).filterMap
        (fun p => if key p.1 = k then some p.2 else Option.none)
      (List.range f.columns.length).map (fun j =>
        colMean (group.map (fun r => r.getD j Option.none)))) }

/-- `GenericParticleSizer.resample` (models.py lines 648-700): the merged
resampled frame is computed first; with `inplace=True` it replaces the
receiver's data, otherwise it is installed on a deep copy that is
returned, the receiver staying untouched. -/
def resampleOp [FloorRing α] (s : Sizer α) (rs : α) (inplace : Bool) :
    Option (Sizer α) × Sizer α :=
  let merged := resampleFrame rs s.data
  if inplace then (Option.none, { s with data := merged })
  else
    let cpy := { s with data := merged }
    (some cpy, s)

/-- The keyword arguments of `smps.utils.make_bins`, with the source's
defaults (`channels_per_decade=64`, `mean_calc="am"`). -/
structure MakeBinsArgs (α : Type) [LinearOrderedField α] where
  boundaries : Option (List α) := Option.none
  boundaries_left : Option (List α) := Option.none
  boundaries_right : Option (List α) := Option.none
  lb : Option α := Option.none
  ub : Option α := Option.none
  midpoints : Option (List α) := Option.none
  channels_per_decade : α := 64
  mean_calc : String := "am"

/-- The midpoints-input loop of `make_bins` (utils.py lines 78-96): the
first bin starts at `lb`; each bin's upper edge is
`round(10 ** (log10(lower) + 1/cpd), 4)` and becomes the next bin's lower
edge, except that the last bin's upper edge is forced to `ub`. -/
def midBinsAux (ops : RealOps α) (cpd ub : α) : α → List α → List (Bin3 α)
  | _, [] => []
  | lower, [m] => [⟨lower, m, ub⟩]
  | lower, m :: rest =>
    let up := ops.round4 (ops.pow10 (ops.log10 lower + 1 / cpd))
    ⟨lower, m, up⟩ :: midBinsAux ops cpd ub up rest

/-- The shared tail of `make_bins` (utils.py lines 121-129): validate
`mean_calc` and fill the midpoints, arithmetic mean `(l + u) / 2` for
`"am"` and geometric mean `sqrt(l * u)` (scipy `gmean` of the two edges)
for `"gm"`. -/
def finishBins (ops : RealOps α) (mean_calc : String)
    (lu : List (α × α)) : Except PyErr (List (Bin3 α)) :=
  if mean_calc = "gm" ∨ mean_calc = "am" then
    .ok (lu.map (fun p =>
      ⟨p.1,
       if mean_calc = "am" then (p.1 + p.2) / 2 else ops.sqrt (p.1 * p.2),
       p.2⟩))
  else .error (.assertionError "Invalid mean calculation method.")

/-- `smps.utils.make_bins` (utils.py lines 10-129): branch on the supplied
inputs exactly as the source does — midpoints first (requiring `lb` and
`ub`), then explicit `boundaries` (lowers `boundaries[0:-1]`, uppers
`boundaries[1:]`), then the left/right boundary pair (requiring equal
lengths), and an error when nothing is given. -/
def make_bins (ops : RealOps α) (args : MakeBinsArgs α) :
    Except PyErr (List (Bin3 α)) :=
  match args.midpoints with
  | some mids =>
    match args.lb, args.ub with
    | some lb, some ub =>
      .ok (midBinsAux ops args.channels_per_decade ub lb mids)
    | _, _ => .error (.exception "A lower and upper bound must be set")
  | Option.none =>
    match args.boundaries with
    | some bs => finishBins ops args.mean_calc (List.zip bs.dropLast bs.tail)
    | Option.none =>
      match args.boundaries_left, args.boundaries_right with
      | some ls, some rs =>
        if ls.length = rs.length then
          finishBins ops args.mean_calc (List.zip ls rs)
        else .error (.assertionError "Boundaries must be the same dimensions.")
      | some _, Option.none =>
        .error (.exception "Missing attribute: `boundaries_right`")
      | Option.none, _ =>
        .error (.exception "Not enough information to compute.")

end Core

/-- The `RealOps` record at `ℝ` with the actual transcendental functions
of the source (`**(1./3.)` and `10 ** x` are `Real.rpow`). -/
noncomputable def realOps : RealOps ℝ where
  log10 := fun x => Real.logb 10 x
  pi := Real.pi
  exp := Real.exp
  log := Real.log
  sqrt := Real.sqrt
  cbrt := fun x => x ^ ((1 : ℝ) / 3)
  pow10 := fun x => (10 : ℝ) ^ x
  round4 := fun x => ((⌊x * 10000 + 1 / 2⌋ : ℤ) : ℝ) / 10000

/-- A `RealOps` record at `ℚ` with placeholder transcendental functions;
used only to evaluate claims whose content does not involve those
functions on concrete inputs. -/
def ratOps : RealOps ℚ where
  log10 := fun _ => 0
  pi := 0
  exp := fun _ => 0
  log := fun _ => 0
  sqrt := fun _ => 0
  cbrt := fun _ => 0
  pow10 := fun _ => 0
  round4 := fun _ => 0

section SelectorLemmas

variable {α : Type} [LinearOrderedField α]

/-- When `d` falls inside the bin, the last branch fires and wins. -/
theorem binFactor_mid (b : Bin3 α) (dmin d : α) (h1 : b.lower ≤ d)
    (h2 : d < b.upper) :
    binFactor dmin d b = (d - b.lower) / (b.upper - b.lower) := by
  simp only [binFactor]
  rw [if_pos ⟨h1, h2⟩]

/-- When `d` is below the (valid) bin and `dmin ≤ d`, no branch fires. -/
theorem binFactor_low (b : Bin3 α) (dmin d : α) (hb : b.lower < b.upper)
    (hm : dmin ≤ d) (h : d < b.lower) : binFactor dmin d b = 0 := by
  have hc3 : ¬ (d ≥ b.lower ∧ d < b.upper) := by
    rintro ⟨hx, _⟩; exact absurd (lt_of_lt_of_le h hx) (lt_irrefl _)
  have hc2 : ¬ (dmin ≥ b.lower ∧ dmin < b.upper) := by
    rintro ⟨hx, _⟩; linarith
  have hc1 : ¬ (b.lower ≥ dmin ∧ b.upper ≤ d) := by
    rintro ⟨_, hy⟩; linarith
  simp only [binFactor]
  rw [if_neg hc3, if_neg hc2, if_neg hc1]

/-- When `dmin` is at or below the bin and `d` at or above it, the final
weight is `1` (either through the fully-inside branch or through the dmin
branch with `dmin` equal to the lower edge). -/
theorem binFactor_high (b : Bin3 α) (dmin d : α) (hdm : dmin ≤ b.lower)
    (hb : b.lower < b.upper) (h : b.upper ≤ d) : binFactor dmin d b = 1 := by
  have hD : (0:α) < b.upper - b.lower := sub_pos.2 hb
  have hc3 : ¬ (d ≥ b.lower ∧ d < b.upper) := by
    rintro ⟨_, hy⟩; linarith
  simp only [binFactor]
  rw [if_neg hc3]
  by_cases hB : dmin ≥ b.lower ∧ dmin < b.upper
  · rw [if_pos hB]
    have hdl : dmin = b.lower := le_antisymm hdm hB.1
    rw [hdl]
    exact div_self (ne_of_gt hD)
  · rw [if_neg hB, if_pos ⟨hdm, h⟩]

/-- When the whole bin is above `dmin` (and `upper ≤ dmin ≤ d`), no branch
fires. -/
theorem binFactor_above (b : Bin3 α) (dmin d : α) (hb : b.lower < b.upper)
    (hup : b.upper ≤ dmin) (hd : dmin ≤ d) : binFactor dmin d b = 0 := by
  have hc3 : ¬ (d ≥ b.lower ∧ d < b.upper) := by
    rintro ⟨_, hy⟩; linarith
  have hc2 : ¬ (dmin ≥ b.lower ∧ dmin < b.upper) := by
    rintro ⟨_, hy⟩; linarith
  have hc1 : ¬ (b.lower ≥ dmin ∧ b.upper ≤ d) := by
    rintro ⟨hx, _⟩; linarith
  simp only [binFactor]
  rw [if_neg hc3, if_neg hc2, if_neg hc1]

/-- Pointwise monotonicity of the per-bin weight in `dmax`, valid for the
bins that do not strictly contain `dmin`. -/
theorem binFactor_mono_dmax (b : Bin3 α) (dmin d1 d2 : α)
    (hb : b.lower < b.upper) (hnot : ¬ (b.lower < dmin ∧ dmin < b.upper))
    (hm : dmin ≤ d1) (h12 : d1 ≤ d2) :
    binFactor dmin d1 b ≤ binFactor dmin d2 b := by
  have hD : (0:α) < b.upper - b.lower := sub_pos.2 hb
  have hcase : dmin ≤ b.lower ∨ b.upper ≤ dmin := by
    rcases le_or_lt dmin b.lower with h | h
    · exact Or.inl h
    · rcases lt_or_le dmin b.upper with h2 | h2
      · exact absurd ⟨h, h2⟩ hnot
      · exact Or.inr h2
  rcases hcase with hdm | hdm
  · rcases lt_or_le d1 b.lower with h1a | h1a
    · rw [binFactor_low b dmin d1 hb hm h1a]
      rcases lt_or_le d2 b.lower with h2a | h2a
      · rw [binFactor_low b dmin d2 hb (le_trans hm h12) h2a]
      · rcases lt_or_le d2 b.upper with h2b | h2b
        · rw [binFactor_mid b dmin d2 h2a h2b]
          exact div_nonneg (by linarith) (le_of_lt hD)
        · rw [binFactor_high b dmin d2 hdm hb h2b]
          exact zero_le_one
    · rcases lt_or_le d1 b.upper with h1b | h1b
      · rw [binFactor_mid b dmin d1 h1a h1b]
        rcases lt_or_le d2 b.upper with h2b | h2b
        · rw [binFactor_mid b dmin d2 (le_trans h1a h12) h2b]
          exact (div_le_div_iff_of_pos_right hD).mpr (by linarith)
        · rw [binFactor_high b dmin d2 hdm hb h2b]
          exact (div_le_one hD).mpr (by linarith)
      · rw [binFactor_high b dmin d1 hdm hb h1b,
            binFactor_high b dmin d2 hdm hb (le_trans h1b h12)]
  · rw [binFactor_above b dmin d1 hb hdm hm,
        binFactor_above b dmin d2 hb hdm (le_trans hm h12)]

/-- The weights for a wider `dmax` dominate elementwise (as `getD`-indexed
vectors), for bin tables none of whose bins strictly contain `dmin`. -/
theorem subselect_bins_mono_getD (bins : List (Bin3 α)) (dmin d1 d2 : α)
    (hv : ∀ b ∈ bins, b.lower < b.upper)
    (hins : ∀ b ∈ bins, ¬ (b.lower < dmin ∧ dmin < b.upper))
    (hm : dmin ≤ d1) (h12 : d1 ≤ d2) :
    ∀ i, (subselect_bins bins dmin d1).getD i 0 ≤
         (subselect_bins bins dmin d2).getD i 0 := by
  induction bins with
  | nil => intro i; simp [subselect_bins]
  | cons b bs ih =>
    intro i
    cases i with
    | zero =>
      exact binFactor_mono_dmax b dmin d1 d2 (hv b (List.mem_cons_self b bs))
        (hins b (List.mem_cons_self b bs)) hm h12
    | succ j =>
      exact ih (fun x hx => hv x (List.mem_cons_of_mem b hx))
        (fun x hx => hins x (List.mem_cons_of_mem b hx)) j

/-- Widening `dmax` never decreases the weighted sum of a non-negative
histogram, for bin tables none of whose bins strictly contain `dmin`. -/
theorem integratedSum_mono (bins : List (Bin3 α)) (hist : List α)
    (dmin d1 d2 : α) (hv : ∀ b ∈ bins, b.lower < b.upper)
    (hins : ∀ b ∈ bins, ¬ (b.lower < dmin ∧ dmin < b.upper))
    (hm : dmin ≤ d1) (h12 : d1 ≤ d2) (hh : ∀ x ∈ hist, 0 ≤ x) :
    integratedSum bins hist dmin d1 ≤ integratedSum bins hist dmin d2 := by
  induction bins generalizing hist with
  | nil => simp [integratedSum, subselect_bins]
  | cons b bs ih =>
    cases hist with
    | nil => simp [integratedSum, subselect_bins]
    | cons h hs =>
      simp only [integratedSum, subselect_bins, List.map_cons,
        List.zipWith_cons_cons, List.sum_cons]
      have hmono := binFactor_mono_dmax b dmin d1 d2
        (hv b (List.mem_cons_self b bs)) (hins b (List.mem_cons_self b bs))
        hm h12
      have hrest := ih hs (fun x hx => hv x (List.mem_cons_of_mem b hx))
        (fun x hx => hins x (List.mem_cons_of_mem b hx))
        (fun x hx => hh x (List.mem_cons_of_mem h hx))
      have hhd : 0 ≤ h := hh h (List.mem_cons_self h hs)
      have := mul_le_mul_of_nonneg_right hmono hhd
      simp only [integratedSum, subselect_bins] at hrest
      exact add_le_add this hrest

end SelectorLemmas

section ClaimC4

variable {α : Type} [LinearOrderedField α]

/-- C4: in the partial-bin selector the three branch conditions are
evaluated in order without `elif`, so for every bin with
`lower ≤ dmin ≤ dmax < upper` (both cut points inside the bin, so both the
dmin branch and the dmax branch fire) the final weight is
`(dmax - lower) / (upper - lower)`: the dmax branch's assignment
overwrites the dmin branch's. -/
theorem claim_C4_dmax_branch_wins (b : Bin3 α) (dmin dmax : α)
    (h1 : b.lower ≤ dmin) (h2 : dmin ≤ dmax) (h3 : dmax < b.upper) :
    binFactor dmin dmax b = (dmax - b.lower) / (b.upper - b.lower) :=
  binFactor_mid b dmin dmax (le_trans h1 h2) h3

/-- C4 witness: the bin `(0, 1/2, 1)` contains both `dmin = 1/4` and
`dmax = 4/5`, and its final weight is `(4/5 - 0) / (1 - 0)`. -/
theorem claim_C4_witness :
    binFactor ((1:ℚ)/4) (4/5) ⟨0, 1/2, 1⟩ = ((4:ℚ)/5 - 0) / (1 - 0) :=
  claim_C4_dmax_branch_wins ⟨0, 1/2, 1⟩ (1/4) (4/5) (by norm_num)
    (by norm_num) (by norm_num)

end ClaimC4

section ClaimC7

variable {α : Type} [LinearOrderedField α]

/-- C7: for every bin table whose rows satisfy `lower < upper` and every
`dmin ≤ dmax`, `_subselect_bins` returns exactly one weight per bin, every
weight lies in `[0, 1]`, and every bin lying entirely outside
`[dmin, dmax]` (`upper ≤ dmin` or `lower > dmax`) gets weight `0`. -/
theorem claim_C7_selector_contract (bins : List (Bin3 α)) (dmin dmax : α)
    (hv : ∀ b ∈ bins, b.lower < b.upper) (hd : dmin ≤ dmax) :
    (subselect_bins bins dmin dmax).length = bins.length ∧
    ∀ b ∈ bins,
      (0 ≤ binFactor dmin dmax b ∧ binFactor dmin dmax b ≤ 1) ∧
      (b.upper ≤ dmin ∨ dmax < b.lower → binFactor dmin dmax b = 0) := by
  constructor
  · simp [subselect_bins]
  · intro b hbmem
    have hb := hv b hbmem
    have hD : (0:α) < b.upper - b.lower := sub_pos.2 hb
    refine ⟨?_, ?_⟩
    · rcases lt_or_le dmax b.lower with hc | hc
      · rw [binFactor_low b dmin dmax hb hd hc]
        exact ⟨le_rfl, zero_le_one⟩
      · rcases lt_or_le dmax b.upper with hc2 | hc2
        · rw [binFactor_mid b dmin dmax hc hc2]
          rcases le_or_lt dmin b.lower with hdl | hdl
          · exact ⟨div_nonneg (by linarith) (le_of_lt hD),
              (div_le_one hD).mpr (by linarith)⟩
          · rcases lt_or_le dmin b.upper with hdu | hdu
            · exact ⟨div_nonneg (by linarith) (le_of_lt hD),
                (div_le_one hD).mpr (by linarith)⟩
            · exact absurd (le_trans hdu hd) (not_le.mpr hc2)
        · rcases le_or_lt dmin b.lower with hdl | hdl
          · rw [binFactor_high b dmin dmax hdl hb hc2]
            exact ⟨zero_le_one, le_rfl⟩
          · rcases lt_or_le dmin b.upper with hdu | hdu
            · have hcB : dmin ≥ b.lower ∧ dmin < b.upper := ⟨le_of_lt hdl, hdu⟩
              have hc3 : ¬ (dmax ≥ b.lower ∧ dmax < b.upper) := by
                rintro ⟨_, hy⟩; linarith
              simp only [binFactor]
              rw [if_neg hc3, if_pos hcB]
              exact ⟨div_nonneg (by linarith) (le_of_lt hD),
                (div_le_one hD).mpr (by linarith)⟩
            · rw [binFactor_above b dmin dmax hb hdu hd]
              exact ⟨le_rfl, zero_le_one⟩
    · rintro (hout | hout)
      · exact binFactor_above b dmin dmax hb hout hd
      · exact binFactor_low b dmin dmax hb hd hout

/-- C7 witness at a concrete two-bin table with one bin fully outside the
range. -/
theorem claim_C7_witness :
    (subselect_bins [⟨0, 1/2, 1⟩, ⟨2, (5:ℚ)/2, 3⟩] ((0:ℚ)) (3/2)).length =
      ([⟨0, 1/2, 1⟩, ⟨2, (5:ℚ)/2, 3⟩] : List (Bin3 ℚ)).length ∧
    ∀ b ∈ ([⟨0, 1/2, 1⟩, ⟨2, (5:ℚ)/2, 3⟩] : List (Bin3 ℚ)),
      (0 ≤ binFactor (0:ℚ) (3/2) b ∧ binFactor (0:ℚ) (3/2) b ≤ 1) ∧
      (b.upper ≤ 0 ∨ (3:ℚ)/2 < b.lower → binFactor (0:ℚ) (3/2) b = 0) :=
  claim_C7_selector_contract [⟨0, 1/2, 1⟩, ⟨2, (5:ℚ)/2, 3⟩] 0 (3/2)
    (by intro b hb; simp only [List.mem_cons, List.mem_singleton] at hb
        rcases hb with h | h | h <;> first | (subst h; norm_num) | cases h)
    (by norm_num)

end ClaimC7

section ClaimC3

/-- C3 counterexample: with the single valid bin `(0, 1/2, 1)`, `dmin = 1/2`
and `dmax1 = 4/5 < 2 = dmax2`, the bin's weight for the narrower range is
`4/5` but for the wider range only `1/2`, and the integrated sum of the
non-negative histogram `[1]` likewise decreases — the claimed monotonicity
under widening is false. -/
theorem claim_C3_counterexample :
    ((1:ℚ)/2 ≤ 4/5 ∧ (4:ℚ)/5 < 2) ∧
    ¬ ((subselect_bins [⟨0, 1/2, 1⟩] ((1:ℚ)/2) (4/5)).getD 0 0 ≤
       (subselect_bins [⟨0, 1/2, 1⟩] ((1:ℚ)/2) 2).getD 0 0) ∧
    ¬ (integratedSum [⟨0, 1/2, 1⟩] [1] ((1:ℚ)/2) (4/5) ≤
       integratedSum [⟨0, 1/2, 1⟩] [1] ((1:ℚ)/2) 2) := by
  norm_num [integratedSum, subselect_bins, binFactor]

/-- C3 (amended): the partial-bin selector weights are monotone under
widening of the diameter range provided `dmin` does not fall strictly
inside any bin: for every bin table with valid bins (`lower < upper`) none
of which strictly contains `dmin`, every `dmin ≤ dmax1 < dmax2`, each
per-bin weight for `[dmin, dmax1]` is at most the weight for
`[dmin, dmax2]`, and the integrated sum of any elementwise non-negative
histogram over `[dmin, dmax1]` never exceeds the one over
`[dmin, dmax2]`.  (Without that proviso the claim fails: a bin strictly
containing `dmin` ends with the dmax-branch weight while `dmax1 < upper`
but reverts to the smaller dmin-branch weight once `dmax2 ≥ upper`.) -/
theorem claim_C3_amended_monotone {α : Type} [LinearOrderedField α]
    (bins : List (Bin3 α)) (hist : List α) (dmin d1 d2 : α)
    (hv : ∀ b ∈ bins, b.lower < b.upper)
    (hins : ∀ b ∈ bins, ¬ (b.lower < dmin ∧ dmin < b.upper))
    (hm : dmin ≤ d1) (h12 : d1 < d2) (hh : ∀ x ∈ hist, 0 ≤ x) :
    (∀ i, (subselect_bins bins dmin d1).getD i 0 ≤
          (subselect_bins bins dmin d2).getD i 0) ∧
    integratedSum bins hist dmin d1 ≤ integratedSum bins hist dmin d2 :=
  ⟨subselect_bins_mono_getD bins dmin d1 d2 hv hins hm (le_of_lt h12),
   integratedSum_mono bins hist dmin d1 d2 hv hins hm (le_of_lt h12) hh⟩

/-- C3 witness: a concrete table whose single bin does not contain
`dmin = 1/2`, with ranges `[1/2, 3/2] ⊆ [1/2, 3]` and histogram `[2]`. -/
theorem claim_C3_witness :
    (∀ i, (subselect_bins [⟨1, 3/2, 2⟩] ((1:ℚ)/2) (3/2)).getD i 0 ≤
          (subselect_bins [⟨1, 3/2, 2⟩] ((1:ℚ)/2) 3).getD i 0) ∧
    integratedSum [⟨1, 3/2, 2⟩] [2] ((1:ℚ)/2) (3/2) ≤
      integratedSum [⟨1, 3/2, 2⟩] [2] ((1:ℚ)/2) 3 :=
  claim_C3_amended_monotone [⟨1, 3/2, 2⟩] [2] (1/2) (3/2) 3
    (by intro b hb; simp only [List.mem_singleton] at hb; subst hb; norm_num)
    (by intro b hb; simp only [List.mem_singleton] at hb; subst hb; norm_num)
    (by norm_num) (by norm_num)
    (by intro x hx; simp only [List.mem_singleton] at hx; subst hx; norm_num)

end ClaimC3

section ClaimC1

/-- C1 counterexample: for the stored bin `(8, 8, 8)` at `rh = 50` with the
constant `kappa = 7`, the growth factor is `(1 + 7 * 1)^(1/3) = 2`, and the
code's row-local midpoint is `8 / 2 = 4` — not the `8 * 2 = 16` that the
claim's "each wet edge equals the dry edge multiplied by f" scaling would
give when the row-local table is read as the wet table obtained from the
stored (dry) one. -/
theorem claim_C1_counterexample :
    (recomputeBins realOps.cbrt (fun _ => 7) 50 [⟨8, 8, 8⟩]).headI.mid ≠
      (8 : ℝ) * realOps.cbrt (1 + 7 * ((50 : ℝ) / (100 - 50))) := by
  have harg : (1 : ℝ) + 7 * ((50 : ℝ) / (100 - 50)) = 8 := by norm_num
  have h8 : ((8 : ℝ)) ^ ((1 : ℝ) / 3) = 2 := by
    rw [show (8 : ℝ) = 2 ^ (3 : ℕ) by norm_num]
    rw [← Real.rpow_natCast (2 : ℝ) 3,
      ← Real.rpow_mul (by norm_num : (0 : ℝ) ≤ 2)]
    rw [show ((3 : ℕ) : ℝ) * ((1 : ℝ) / 3) = 1 by norm_num, Real.rpow_one]
  simp only [recomputeBins, realOps, List.map_cons, List.map_nil,
    List.zip_cons_cons, List.zip_nil_right, List.headI]
  rw [harg, h8]
  norm_num

/-- C1 (amended): in the growth-corrected path, the row-local bin table is
obtained from the stored bin table by dividing (not multiplying) all three
edges of each bin by `f = (1 + kappa(m) * rh/(100 - rh))^(1/3)`, where `m`
is the stored midpoint of that bin — i.e. the code treats the stored bins
as the wet diameters and the row-local table as the dry one, and kappa is
evaluated at the stored (wet) midpoint, not at the row-local (dry)
midpoint. -/
theorem claim_C1_growth_scaling_amended (kap : ℝ → ℝ) (rh : ℝ)
    (bins : List (Bin3 ℝ)) :
    recomputeBins realOps.cbrt kap rh bins = bins.map (fun b =>
      let f := realOps.cbrt (1 + kap b.mid * (rh / (100 - rh)))
      ⟨b.lower / f, b.mid / f, b.upper / f⟩) := by
  induction bins with
  | nil => rfl
  | cons b bs ih =>
    simp only [recomputeBins, List.map_cons, List.zip_cons_cons] at ih ⊢
    exact congrArg (List.cons _) ih

end ClaimC1

section ListHelpers

/-- `getD` through `map`, for in-range indices. -/
theorem getD_map_lt {α β : Type} (f : α → β) (l : List α) (i : Nat)
    (h : i < l.length) (d : α) (d2 : β) :
    (l.map f).getD i d2 = f (l.getD i d) := by
  induction l generalizing i with
  | nil => simp at h
  | cons a t ih =>
    cases i with
    | zero => rfl
    | succ j =>
      simp only [List.map_cons, List.getD_cons_succ]
      exact ih j (by simpa using h)

/-- The `i`-th adjacent pair of a list, through `dropLast`/`tail`/`zip`. -/
theorem zip_dropLast_tail_getD {α : Type} (bs : List α) (i : Nat)
    (h : i + 1 < bs.length) (d : α) :
    (bs.dropLast.zip bs.tail).getD i (d, d) =
      (bs.getD i d, bs.getD (i + 1) d) := by
  induction bs generalizing i with
  | nil => simp at h
  | cons a t ih =>
    cases t with
    | nil => simp at h
    | cons a2 t2 =>
      cases i with
      | zero => rfl
      | succ j =>
        have hj : j + 1 < (a2 :: t2).length := by
          simpa [Nat.succ_lt_succ_iff] using h
        have := ih j hj
        simpa [List.getD_cons_succ] using this

end ListHelpers

section ClaimC8

/-- C8: for a strictly increasing, nonempty boundaries list of length
`N + 1`, `make_bins(boundaries=...)` succeeds with exactly `N` bins, bin
`i` having lower edge `boundaries[i]` and upper edge `boundaries[i+1]`
(hence consecutive bins share an edge), and each midpoint the arithmetic
mean `(l + u)/2` for `mean_calc = "am"` (the default) or the geometric mean
`sqrt(l * u)` for `mean_calc = "gm"`. -/
theorem claim_C8_make_bins_boundaries {α : Type} [LinearOrderedField α]
    (ops : RealOps α) (bs : List α) (mc : String)
    (hsort : List.Sorted (· < ·) bs) (hne : bs ≠ [])
    (hmc : mc = "am" ∨ mc = "gm") :
    ∃ b, make_bins ops { boundaries := some bs, mean_calc := mc } = .ok b ∧
      b.length + 1 = bs.length ∧
      (∀ i, i + 1 < bs.length →
        b.getD i ⟨0, 0, 0⟩ =
          ⟨bs.getD i 0,
           (if mc = "am" then (bs.getD i 0 + bs.getD (i + 1) 0) / 2
            else ops.sqrt (bs.getD i 0 * bs.getD (i + 1) 0)),
           bs.getD (i + 1) 0⟩) ∧
      (∀ i, i + 1 < b.length →
        (b.getD i ⟨0, 0, 0⟩).upper = (b.getD (i + 1) ⟨0, 0, 0⟩).lower) := by
  have hok : make_bins ops { boundaries := some bs, mean_calc := mc } =
      .ok ((bs.dropLast.zip bs.tail).map (fun p =>
        ⟨p.1,
         if mc = "am" then (p.1 + p.2) / 2 else ops.sqrt (p.1 * p.2),
         p.2⟩)) := by
    rcases hmc with h | h <;>
      simp [make_bins, finishBins, h]
  refine ⟨_, hok, ?_, ?_, ?_⟩
  · have h1 : bs.dropLast.length = bs.length - 1 := List.length_dropLast bs
    have h2 : bs.tail.length = bs.length - 1 := List.length_tail bs
    have h3 : 1 ≤ bs.length := by
      cases bs with
      | nil => exact absurd rfl hne
      | cons x xs => simp
    simp [List.length_zip, h1, h2]
    omega
  · intro i hi
    have hlen : i < (bs.dropLast.zip bs.tail).length := by
      simp [List.length_zip, List.length_dropLast, List.length_tail]
      omega
    rw [getD_map_lt _ _ i hlen (0, 0) _, zip_dropLast_tail_getD bs i hi 0]
  · intro i hi
    have hblen : ((bs.dropLast.zip bs.tail).map (fun p : α × α =>
        (⟨p.1,
          if mc = "am" then (p.1 + p.2) / 2 else ops.sqrt (p.1 * p.2),
          p.2⟩ : Bin3 α))).length = bs.length - 1 := by
      simp [List.length_zip, List.length_dropLast, List.length_tail]
    rw [hblen] at hi
    have hi1 : i + 1 < bs.length := by omega
    have hi2 : i + 1 + 1 < bs.length := by omega
    have hlen1 : i < (bs.dropLast.zip bs.tail).length := by
      simp [List.length_zip, List.length_dropLast, List.length_tail]
      omega
    have hlen2 : i + 1 < (bs.dropLast.zip bs.tail).length := by
      simp [List.length_zip, List.length_dropLast, List.length_tail]
      omega
    rw [getD_map_lt _ _ i hlen1 (0, 0) _,
      getD_map_lt _ _ (i + 1) hlen2 (0, 0) _,
      zip_dropLast_tail_getD bs i hi1 0,
      zip_dropLast_tail_getD bs (i + 1) hi2 0]

/-- C8 witness: boundaries `[1, 2, 4]` with the default arithmetic-mean
midpoints. -/
theorem claim_C8_witness :
    ∃ b, make_bins ratOps { boundaries := some [1, 2, 4], mean_calc := "am" } =
        .ok b ∧
      b.length + 1 = ([1, 2, 4] : List ℚ).length ∧
      (∀ i, i + 1 < ([1, 2, 4] : List ℚ).length →
        b.getD i ⟨0, 0, 0⟩ =
          ⟨([1, 2, 4] : List ℚ).getD i 0,
           (if "am" = "am" then
              (([1, 2, 4] : List ℚ).getD i 0 + ([1, 2, 4] : List ℚ).getD (i + 1) 0) / 2
            else ratOps.sqrt (([1, 2, 4] : List ℚ).getD i 0 * ([1, 2, 4] : List ℚ).getD (i + 1) 0)),
           ([1, 2, 4] : List ℚ).getD (i + 1) 0⟩) ∧
      (∀ i, i + 1 < b.length →
        (b.getD i ⟨0, 0, 0⟩).upper = (b.getD (i + 1) ⟨0, 0, 0⟩).lower) :=
  claim_C8_make_bins_boundaries ratOps [1, 2, 4] "am"
    (by norm_num [List.sorted_cons]) (by simp) (Or.inl rfl)

end ClaimC8

/-- A concrete model instance: one bin `(1, 2, 3)` labelled `bin0`, one data
row with `bin0 = 3` and humidity column `sample_rh = 50`. -/
def demoSizer : Sizer ℚ where
  data := { columns := ["bin0", "sample_rh"], index := [0],
            rows := [[some 3, some 50]] }
  bins := [⟨1, 2, 3⟩]
  bin_labels := ["bin0"]

/-- A concrete model instance whose single data row has a `NaN` bin value
but a non-`NaN` humidity value. -/
def nanSizer : Sizer ℚ where
  data := { columns := ["bin0", "sample_rh"], index := [0],
            rows := [[Option.none, some 50]] }
  bins := [⟨1, 2, 3⟩]
  bin_labels := ["bin0"]

section ClaimC2

/-- C2 counterexample: calling `integrate` with a (callable, hence truthy)
kappa and no `rh` column name returns an `AttributeError`, not the
`ConfigurationError` the claim names — no `ConfigurationError` exists in
the source at all. -/
theorem claim_C2_counterexample :
    isConfigErr (integrateOp ratOps demoSizer "mass" 0 1 (.const 1)
      (.func (fun x => x)) Option.none).1 = false ∧
    (integrateOp ratOps demoSizer "mass" 0 1 (.const 1)
      (.func (fun x => x)) Option.none).1 =
      .error (.attributeError rhRequiredMsg) := by
  constructor <;> rfl

/-- C2 (amended): for every call to `integrate` with a valid weight and a
truthy kappa argument: if no `rh` column name is given (or the empty
string, equally falsy in Python), the call raises `AttributeError` — not
`ConfigurationError` — with the message that `rh` is a required column; if
the named `rh` column is absent from the data table, the call raises
`ValidationError`; in both cases the result is the bare error and the
receiver state is unchanged, so no partial result is produced. -/
theorem claim_C2_kappa_errors_amended {α : Type} [LinearOrderedField α]
    (ops : RealOps α) (s : Sizer α) (weight : String) (dmin dmax : α)
    (rho : RhoArg α) (kappa : KappaArg α) (rh : Option String)
    (hw : weight ∈ validWeights) (hk : kappa.truthy = true) :
    ((rh = Option.none ∨ rh = some "") →
      integrateOp ops s weight dmin dmax rho kappa rh =
        (.error (.attributeError rhRequiredMsg), s)) ∧
    (∀ c, rh = some c → c ≠ "" → c ∉ s.data.columns →
      integrateOp ops s weight dmin dmax rho kappa rh =
        (.error (.validationError
          ("No column for " ++ c ++ " was found in `data`")), s)) := by
  constructor
  · rintro (h | h) <;> subst h <;> simp [integrateOp, hw, hk]
  · intro c hc hne hnc
    subst hc
    simp [integrateOp, hw, hk, hne, hnc]

/-- C2 witness: the demo model has no column named `rh`, so asking for it
with a truthy kappa yields the `ValidationError`. -/
theorem claim_C2_witness :
    ((some "rh" = (Option.none : Option String) ∨ some "rh" = some "") →
      integrateOp ratOps demoSizer "mass" 0 1 (.const 1)
        (.func (fun x => x)) (some "rh") =
        (.error (.attributeError rhRequiredMsg), demoSizer)) ∧
    (∀ c, some "rh" = some c → c ≠ "" → c ∉ demoSizer.data.columns →
      integrateOp ratOps demoSizer "mass" 0 1 (.const 1)
        (.func (fun x => x)) (some "rh") =
        (.error (.validationError
          ("No column for " ++ c ++ " was found in `data`")), demoSizer)) :=
  claim_C2_kappa_errors_amended ratOps demoSizer "mass" 0 1 (.const 1)
    (.func (fun x => x)) (some "rh") (by simp [validWeights]) rfl

end ClaimC2

section ClaimC5

/-- C5 counterexample: an invalid weight makes `stats` and `integrate` fail
with `AssertionError` (the bare `assert` in `stats` carries no message, the
one in `integrate` says "Invalid `weight`") — not with the
`ConfigurationError` the claim names. -/
theorem claim_C5_counterexample :
    isConfigErr (statsOp ratOps demoSizer "foo" 0 1000 1).1 = false ∧
    (statsOp ratOps demoSizer "foo" 0 1000 1).1 =
      .error (.assertionError "") ∧
    isConfigErr (integrateOp ratOps demoSizer "foo" 0 1 (.const 1) .none
      Option.none).1 = false ∧
    (integrateOp ratOps demoSizer "foo" 0 1 (.const 1) .none
      Option.none).1 = .error (.assertionError "Invalid `weight`") := by
  refine ⟨rfl, rfl, rfl, rfl⟩

/-- C5 (amended): for every call to `stats` or `integrate` with a weight
outside `{number, surface, volume, mass}`, the call fails fast with
`AssertionError` (not `ConfigurationError`) before any computation: the
result is the bare error and the receiver state is unchanged, so no
partial result is produced. -/
theorem claim_C5_invalid_weight_amended {α : Type} [LinearOrderedField α]
    (ops : RealOps α) (s : Sizer α) (weight : String) (dmin dmax rho : α)
    (rhoArg : RhoArg α) (kappa : KappaArg α) (rh : Option String)
    (hw : weight ∉ validWeights) :
    statsOp ops s weight dmin dmax rho = (.error (.assertionError ""), s) ∧
    integrateOp ops s weight dmin dmax rhoArg kappa rh =
      (.error (.assertionError "Invalid `weight`"), s) := by
  constructor
  · simp [statsOp, hw]
  · simp [integrateOp, hw]

/-- C5 witness at the concrete invalid weight `"foo"`. -/
theorem claim_C5_witness :
    statsOp ratOps demoSizer "foo" 0 1000 1 =
      (.error (.assertionError ""), demoSizer) ∧
    integrateOp ratOps demoSizer "foo" 0 1 (.const 1) .none Option.none =
      (.error (.assertionError "Invalid `weight`"), demoSizer) :=
  claim_C5_invalid_weight_amended ratOps demoSizer "foo" 0 1000 1 (.const 1)
    .none Option.none (by simp [validWeights])

end ClaimC5

section ClaimC10

/-- C10: because `integrate` tests the kappa argument for truthiness
(`if kappa:`) rather than presence, `kappa = 0.0` is treated exactly as if
kappa were not supplied: the call takes the uncorrected base path, its
result (and post-state) equals the same call without kappa, and — for any
valid weight — it succeeds even when no `rh` column name is given or the
named `rh` column is absent from the data. -/
theorem claim_C10_kappa_zero {α : Type} [LinearOrderedField α]
    (ops : RealOps α) (s : Sizer α) (weight : String) (dmin dmax : α)
    (rho : RhoArg α) (rh : Option String) :
    integrateOp ops s weight dmin dmax rho (.const 0) rh =
      integrateOp ops s weight dmin dmax rho .none rh ∧
    (weight ∈ validWeights →
      ∃ v, (integrateOp ops s weight dmin dmax rho (.const 0) rh).1 =
        .ok v) := by
  have ht : (KappaArg.const (0 : α)).truthy = false := by
    simp [KappaArg.truthy]
  constructor
  · simp [integrateOp, ht, KappaArg.truthy]
  · intro hw
    simp only [integrateOp, ht, hw]
    simp

/-- C10 witness: the demo model, weight `"number"`, `kappa = 0`, and no
`rh` name at all. -/
theorem claim_C10_witness :
    integrateOp ratOps demoSizer "number" 0 10 (.const 1) (.const 0)
        Option.none =
      integrateOp ratOps demoSizer "number" 0 10 (.const 1) .none
        Option.none ∧
    ("number" ∈ validWeights ∧
      ∃ v, (integrateOp ratOps demoSizer "number" 0 10 (.const 1) (.const 0)
        Option.none).1 = .ok v) :=
  ⟨(claim_C10_kappa_zero ratOps demoSizer "number" 0 10 (.const 1)
      Option.none).1,
   by simp [validWeights],
   (claim_C10_kappa_zero ratOps demoSizer "number" 0 10 (.const 1)
      Option.none).2 (by simp [validWeights])⟩

end ClaimC10

section ClaimC6

variable {α : Type} [LinearOrderedField α]

/-- Bin sub-selection multiplies cells or leaves them alone, so it preserves
which cells are missing; in particular a row has a non-`NaN` cell after
`_subselect_frame` exactly when it had one before. -/
theorem mulCols_any_isSome (labels : List String) (factors : List α)
    (cols : List String) (row : List (Option α))
    (h : row.length ≤ cols.length) :
    (mulCols labels factors cols row).any (fun c => c.isSome) =
      row.any (fun c => c.isSome) := by
  induction row generalizing cols with
  | nil => simp [mulCols]
  | cons c cs ih =>
    cases cols with
    | nil => simp at h
    | cons co cos =>
      have hrest := ih cos (by simpa using h)
      simp only [mulCols, List.zipWith_cons_cons, List.any_cons]
      simp only [mulCols] at hrest
      rw [hrest]
      cases hfi : List.findIdx? (fun x => x == co) labels <;>
        cases c <;> simp [hfi]

/-- C6 counterexample: for a model whose single data row has a `NaN` bin
value but a non-`NaN` humidity cell, `stats` computes a statistics record
for that row (`dropna(how='all')` looks at every column, not just the
bins), so a returned row IS computed from an all-`NaN` histogram,
contradicting the claim. -/
theorem claim_C6_counterexample :
    ((statsOp ratOps nanSizer "number" 0 1000 1).1.toOption.getD []).map
        Option.isSome = [true] ∧
    (nanSizer.data.rows.getD 0 []).getD 0 (some 0) = Option.none := by
  constructor <;> rfl

/-- C6 (amended): `stats` excludes a row from the statistics computation
exactly when every cell of the row — bin columns and metadata columns
alike — is `NaN` after diameter sub-selection; since sub-selection
preserves cell missingness, row `i` of the result is a computed record iff
row `i` of the data has at least one non-missing cell.  Rows with a
non-missing bin value are therefore retained, but a row whose bin values
are all `NaN` is also retained (and its statistics computed from an
all-`NaN` histogram) whenever some metadata cell is non-missing. -/
theorem claim_C6_dropna_amended (ops : RealOps α) (s : Sizer α)
    (weight : String) (dmin dmax rho : α) (hw : weight ∈ validWeights)
    (hrows : ∀ r ∈ s.data.rows, r.length ≤ s.data.columns.length) :
    ∃ l, statsOp ops s weight dmin dmax rho = (.ok l, s) ∧
      l.length = s.data.rows.length ∧
      ∀ i, (l.getD i Option.none).isSome =
        (s.data.rows.getD i []).any (fun c => c.isSome) := by
  unfold statsOp
  rw [if_pos hw]
  refine ⟨_, rfl, ?_, ?_⟩
  · simp [subselect_frame]
  · intro i
    rcases lt_or_le i s.data.rows.length with hi | hi
    · have hlen1 : i < (subselect_frame s.bins s.bin_labels s.data dmin
          dmax).rows.length := by
        simp [subselect_frame, hi]
      rw [getD_map_lt _ _ i hlen1 []]
      have hrw : (subselect_frame s.bins s.bin_labels s.data dmin
          dmax).rows.getD i [] =
          mulCols s.bin_labels (subselect_bins s.bins dmin dmax)
            s.data.columns (s.data.rows.getD i []) := by
        simp only [subselect_frame]
        exact getD_map_lt _ s.data.rows i hi [] []
      rw [hrw]
      have hmem : s.data.rows.getD i [] ∈ s.data.rows := by
        rw [List.getD_eq_getElem s.data.rows [] hi]
        exact List.getElem_mem hi
      rw [mulCols_any_isSome s.bin_labels (subselect_bins s.bins dmin dmax)
        s.data.columns (s.data.rows.getD i []) (hrows _ hmem)]
      cases hX : (s.data.rows.getD i []).any (fun c => c.isSome) <;>
        simp [hX]
    · rw [List.getD_eq_default _ _ (by simpa [subselect_frame] using hi),
          List.getD_eq_default _ _ hi]
      rfl

end ClaimC6

/-- A concrete model with one fully-populated row and one fully-`NaN`
row. -/
def mixSizer : Sizer ℚ where
  data := { columns := ["bin0", "sample_rh"], index := [0, 1],
            rows := [[some 5, some 50], [Option.none, Option.none]] }
  bins := [⟨1, 2, 3⟩]
  bin_labels := ["bin0"]

/-- C6 witness at the mixed model. -/
theorem claim_C6_witness :
    ∃ l, statsOp ratOps mixSizer "number" 0 1000 1 = (.ok l, mixSizer) ∧
      l.length = mixSizer.data.rows.length ∧
      ∀ i, (l.getD i Option.none).isSome =
        (mixSizer.data.rows.getD i []).any (fun c => c.isSome) :=
  claim_C6_dropna_amended ratOps mixSizer "number" 0 1000 1
    (by simp [validWeights]) (by decide)

section ClaimC9

/-- C9: the non-destructive operations leave the model's internal state
unchanged: `stats` and `integrate` always return the receiver as
post-state, and `slice` / `resample` do so whenever `inplace = false`
(they replace the receiver's data only under the explicit in-place
flag). -/
theorem claim_C9_frame_effect {α : Type} [LinearOrderedField α]
    [FloorRing α] (ops : RealOps α) (s : Sizer α) (weight : String)
    (dmin dmax rho rs : α) (rhoArg : RhoArg α) (kappa : KappaArg α)
    (rh : Option String) (a b : Option α) :
    (statsOp ops s weight dmin dmax rho).2 = s ∧
    (integrateOp ops s weight dmin dmax rhoArg kappa rh).2 = s ∧
    (sliceOp s a b false).2 = s ∧
    (resampleOp s rs false).2 = s := by
  refine ⟨?_, ?_, rfl, rfl⟩
  · unfold statsOp
    split <;> rfl
  · unfold integrateOp
    cases rh <;> simp only [] <;> repeat' split
    all_goals rfl

end ClaimC9

end Smps
